import Mathlib

/-
Verification of the `arena_demo` execution core.

This file gives a shallow embedding, in Lean, of the Go sources of the
repository:

  * `pkg/fastqueue/queue.go` — a single-producer/single-consumer ring buffer
    with `uint64` head/tail indices (all index arithmetic is taken modulo
    `2 ^ 64`, exactly as Go `uint64` arithmetic does);
  * `pkg/arena/arena.go`    — a bump allocator over a byte region;
  * `pkg/zlog/logger.go`    — an append-only structured logger;
  * `pkg/core/engine.go`    — the worker engine's `process` dispatcher.

Go machine integers are modelled as `Nat` (for `uint64` values, with explicit
`% 2 ^ 64` where the code can wrap) and `Int` (for `int`/`int64` values, with
explicit two's-complement wrapping where the code can overflow).  Go `float64`
values are idealised as exact rationals (`Rat`); `sysclock.Now()` is modelled
as an explicit timestamp argument.  A Go `panic` is modelled as `Option.none`.
Concurrency is modelled by sequential interleaving: the SPSC discipline means
exactly one operation (a push or a pop) takes effect at a time.
-/

namespace ArenaDemo

/-- `2 ^ 64`, the modulus of Go `uint64` arithmetic. -/
def U64 : Nat := 2 ^ 64

namespace fastqueue

/-- Embedding of `fastqueue.RingBuffer[T]` (queue.go).  The `CacheLinePad`
fields are layout-only and carry no state.  `head` and `tail` hold the Go
`uint64` values (always `< U64`). -/
structure RingBuffer (T : Type) where
  buffer : List T
  size : Nat
  mask : Nat
  head : Nat
  tail : Nat

/-- Embedding of `fastqueue.New[T](size)` (queue.go lines 31–41).  The Go code
panics (here: `none`) when `size & (size-1) != 0`; `size - 1` is computed in
`uint64` arithmetic, so `size = 0` gives `0 & (2^64 - 1) = 0` and is accepted.
`make([]T, size)` yields `size` zero values. -/
def New (T : Type) [Inhabited T] (size : Nat) : Option (RingBuffer T) :=
  if size &&& ((size + U64 - 1) % U64) ≠ 0 then none
  else some { buffer := List.replicate size default, size := size,
              mask := (size + U64 - 1) % U64, head := 0, tail := 0 }

/-- Embedding of `(*RingBuffer[T]).Push` (queue.go lines 44–58).  `head-tail`
is Go `uint64` subtraction, i.e. `(head + 2^64 - tail) % 2^64`; on success the
element is stored at `head & mask` and `head` is incremented (mod `2^64`). -/
def RingBuffer.Push (rb : RingBuffer T) (item : T) : RingBuffer T × Bool :=
  if (rb.head + U64 - rb.tail) % U64 ≥ rb.size then (rb, false)
  else ({ rb with
            buffer := rb.buffer.set (rb.head &&& rb.mask) item
            head := (rb.head + 1) % U64 }, true)

/-- Embedding of `(*RingBuffer[T]).Pop` (queue.go lines 61–73).  Returns the
zero value (`default`) and `false` when `tail >= head` (as `uint64` values);
otherwise reads slot `tail & mask` and increments `tail` (mod `2^64`). -/
def RingBuffer.Pop [Inhabited T] (rb : RingBuffer T) : RingBuffer T × T × Bool :=
  if rb.tail ≥ rb.head then (rb, default, false)
  else ({ rb with tail := (rb.tail + 1) % U64 },
        rb.buffer.getD (rb.tail &&& rb.mask) default, true)

/-- One queue operation of a sequential (SPSC-linearised) history. -/
inductive QOp (T : Type) where
  | push (x : T)
  | pop

/-- Run a list of operations against a ring buffer; returns the final buffer,
the list of successfully pushed items (in order) and the list of successfully
popped items (in order). -/
def runOps [Inhabited T] : RingBuffer T → List (QOp T) → RingBuffer T × List T × List T
  | rb, [] => (rb, [], [])
  | rb, QOp.push x :: ops =>
    let p := rb.Push x
    let r := runOps p.1 ops
    (r.1, if p.2 then x :: r.2.1 else r.2.1, r.2.2)
  | rb, QOp.pop :: ops =>
    let p := rb.Pop
    let r := runOps p.1 ops
    (r.1, r.2.1, if p.2.2 then p.2.1 :: r.2.2 else r.2.2)

/-- The sequential-use invariant of a ring buffer of capacity `N`, relating
the state to the accumulated histories `pushed` (all successfully pushed
items, oldest first) and `popped` (all successfully popped items).  -/
structure QInv (N : Nat) (pushed popped : List T) (rb : RingBuffer T) : Prop where
  size_eq : rb.size = N
  mask_eq : rb.mask = N - 1
  buf_len : rb.buffer.length = N
  head_eq : rb.head = pushed.length
  tail_eq : rb.tail = popped.length
  pop_le : popped.length ≤ pushed.length
  push_bound : pushed.length ≤ popped.length + N
  head_lt : pushed.length < U64
  fifo : popped = pushed.take popped.length
  content : ∀ i, popped.length ≤ i → i < pushed.length →
    rb.buffer[i % N]? = pushed[i]?

end fastqueue

/-- `n` is a power of two. -/
def isPow2 (n : Nat) : Prop := ∃ k, n = 2 ^ k

namespace arena

/-- Embedding of `arena.Arena` (arena.go): a byte region `buf` plus a bump
cursor `offset`.  Bytes are `Nat` values. -/
structure Arena where
  buf : List Nat
  offset : Nat

/-- The alignment padding `(align - offset % align) % align` computed by both
`New` and `MakeSlice` (arena.go). -/
def pad (offset align : Nat) : Nat := (align - offset % align) % align

/-- Overwrite `len` bytes starting at `start` with zeros: the effect of the
zeroing store `*(*T)(ptr) = zero` in `New`, resp. of the `s[i] = empty` loop
in `MakeSlice` (the Go zero value of every type is all-zero bytes).  Intended
for `start + len ≤ l.length`, which every guarded call satisfies. -/
def zeroFill (l : List Nat) (start len : Nat) : List Nat :=
  l.take start ++ List.replicate len 0 ++ l.drop (start + len)

/-- Embedding of `arena.New[T](a)` (arena.go lines 48–71) for a type of the
given size and alignment.  Returns the updated arena and the offset of the
returned pointer; `none` models a panic — either the explicit
`"arena: out of memory"` panic when `a.offset+padding+size > len(a.buf)`, or
the index-out-of-range panic of `&a.buf[a.offset]` when `a.offset+padding`
is not a valid index (which, given the first guard, can only happen for
`size = 0` with the arena exactly full). -/
def New (a : Arena) (size align : Nat) : Option (Arena × Nat) :=
  if a.buf.length < a.offset + pad a.offset align + size then none
  else if a.buf.length ≤ a.offset + pad a.offset align then none
  else some ({ buf := zeroFill a.buf (a.offset + pad a.offset align) size,
               offset := a.offset + pad a.offset align + size },
             a.offset + pad a.offset align)

/-- Embedding of `arena.MakeSlice[T](a, length, capacity)` (arena.go lines
75–112) for an element type of the given size and alignment: allocates
`size = elemSize * capacity` bytes at alignment `elemAlign`, zero-fills all
`capacity` elements, and returns the slice as (arena, base offset, length,
capacity).  Three panic paths, all modelled as `none`: the explicit
out-of-memory panic, the `&a.buf[a.offset]` index-out-of-range edge (as in
`New`), and the final `return s[:length]` (arena.go line 111), which panics
with slice-bounds-out-of-range whenever `length > capacity` since
`s = unsafe.Slice(basePtr, capacity)` has len = cap = capacity.  Negative
`length`/`capacity` arguments are outside the model (the repository's
callers pass non-negative literals). -/
def MakeSlice (a : Arena) (elemSize elemAlign slen scap : Nat) :
    Option (Arena × Nat × Nat × Nat) :=
  if a.buf.length < a.offset + pad a.offset elemAlign + elemSize * scap then none
  else if a.buf.length ≤ a.offset + pad a.offset elemAlign then none
  else if scap < slen then none
  else some ({ buf := zeroFill a.buf (a.offset + pad a.offset elemAlign) (elemSize * scap),
               offset := a.offset + pad a.offset elemAlign + elemSize * scap },
             a.offset + pad a.offset elemAlign, slen, scap)

/-- Embedding of `(*Arena).Reset` (arena.go): rewind the cursor, leaving the
region contents in place. -/
def Reset (a : Arena) : Arena := { a with offset := 0 }

/-- An allocation request: the size and alignment of the requested type, as
`unsafe.Sizeof` / `unsafe.Alignof` would report them. -/
structure Req where
  size : Nat
  align : Nat

/-- Run a sequence of `New`-style allocations within one epoch.  A panic
aborts the program, so the run stops at the first failure.  Returns the
final arena and the list of returned spans as (start offset, size, align). -/
def runAllocs : Arena → List Req → Arena × List (Nat × Nat × Nat)
  | a, [] => (a, [])
  | a, r :: rs =>
    match New a r.size r.align with
    | none => (a, [])
    | some (a1, off) =>
      let rest := runAllocs a1 rs
      (rest.1, (off, r.size, r.align) :: rest.2)

/-- The cursor position after serving all requests starting from `offset`:
the total of the requested sizes together with the alignment padding each
request incurs. -/
def paddedEnd (offset : Nat) : List Req → Nat
  | [] => offset
  | r :: rs => paddedEnd (offset + pad offset r.align + r.size) rs

end arena

namespace zlog

/-- Embedding of `zlog.Logger` (logger.go): the byte buffer, modelled as a
`String` (every byte the logger writes is ASCII text, so the byte sequence
and the string coincide). -/
structure Logger where
  buf : String

/-- Embedding of `zlog.Wrap(buf)` (logger.go lines 23–27): wrap a
caller-supplied buffer. -/
def Wrap (buf : String) : Logger := ⟨buf⟩

/-- `(*Logger).appendString` (logger.go lines 61–67): plain byte append. -/
def Logger.appendString (l : Logger) (s : String) : Logger := ⟨l.buf ++ s⟩

/-- `(*Logger).appendInt` (logger.go lines 69–72):
`strconv.AppendInt(l.buf, int64(i), 10)` appends the decimal digits of `i`,
with a leading `-` for negative values. -/
def Logger.appendInt (l : Logger) (i : Int) : Logger := ⟨l.buf ++ toString i⟩

/-- `(*Logger).Int` (logger.go lines 30–36): appends `key=value `. -/
def Logger.Int (l : Logger) (key : String) (val : Int) : Logger :=
  (((l.appendString key).appendString "=").appendInt val).appendString " "

/-- `(*Logger).Str` (logger.go lines 39–45): appends `key=value `. -/
def Logger.Str (l : Logger) (key val : String) : Logger :=
  (((l.appendString key).appendString "=").appendString val).appendString " "

/-- `(*Logger).Msg` (logger.go lines 47–52): appends the terminal token
`msg=<text>\n`.  The Go method mutates the logger in place and returns
nothing; the model returns the updated logger. -/
def Logger.Msg (l : Logger) (msg : String) : Logger :=
  ((l.appendString "msg=").appendString msg).appendString "\n"

/-- `(*Logger).Bytes` (logger.go lines 55–57): the accumulated buffer. -/
def Logger.Bytes (l : Logger) : String := l.buf

end zlog

namespace core

/-- `core.TaskTypeCalc` (engine.go). -/
def TaskTypeCalc : Nat := 0

/-- `core.TaskTypeOrder` (engine.go). -/
def TaskTypeOrder : Nat := 1

/-- Embedding of `core.Task` (engine.go): the flattened tagged-union task
record.  The Go field `Type` is spelled `type` (a Lean keyword otherwise);
the single-use `Resp` channel is modelled by the response value `process`
returns; `LogBuf` is `none` for a nil caller buffer. -/
structure Task where
  type : Nat
  Value : Int
  Price : Rat
  Quantity : Int
  LogBuf : Option String

/-- Embedding of `core.OrderResult` (engine.go). -/
structure OrderResult where
  Total : Rat
  ProcessedAt : Int
  Log : Option String

/-- A value sent on the task's `Resp` channel (`chan any`): calc tasks send
an `int`, order tasks send an `OrderResult`. -/
inductive Resp where
  | intVal (v : Int)
  | orderVal (r : OrderResult)

/-- Two's-complement wrapping of Go `int`/`int64` arithmetic. -/
def wrapI64 (x : Int) : Int := (x + 2 ^ 63) % 2 ^ 64 - 2 ^ 63

/-- The part of `core.Engine` (engine.go) that `process` touches: the arena
and the bounded state table `UserVolume [1024]float64`.  The array is
modelled as a total function from index to value; `float64` values are
idealised as exact rationals.  (`Queue` belongs to the bridge, not to
`process`.) -/
structure Engine where
  Mem : arena.Arena
  UserVolume : Nat → Rat

/-- Embedding of `(*Engine).process(t)` (engine.go lines 124–165), with the
`sysclock.Now()` reading passed in as `now`.

Calc branch: allocates an `int` on the arena (`arena.New[int]`, size 8,
align 8; `none` models the out-of-memory panic), stores `t.Value * 2` in it
(with `int64` wrapping; the pointed-to value is tracked at the model level,
not as arena bytes), adds `float64` of it to `UserVolume[0]`, and sends the
doubled value.  Order branch: computes `total = t.Price * float64(t.Quantity)`,
adds it to `UserVolume[t.Value & 1023]` (two's-complement AND, always in
`[0, 1023]`), renders the log record into the caller's buffer when one is
present, and sends an `OrderResult`.  Any other tag sends nothing. -/
def Engine.process (e : Engine) (t : Task) (now : Int) :
    Option (Engine × Option Resp) :=
  if t.type = TaskTypeCalc then
    match arena.New e.Mem 8 8 with
    | none => none
    | some (mem1, _off) =>
      let doubled := wrapI64 (t.Value * 2)
      some ({ Mem := mem1,
              UserVolume := fun j =>
                if j = 0 then e.UserVolume j + (doubled : Rat)
                else e.UserVolume j },
            some (Resp.intVal doubled))
  else if t.type = TaskTypeOrder then
    let total : Rat := t.Price * (t.Quantity : Rat)
    let userID : Int := Int.land t.Value 1023
    let logBytes : Option String :=
      match t.LogBuf with
      | none => none
      | some b =>
        some ((((((zlog.Wrap b).Int "ts" now).Str "type" "order").Int "uid"
          userID).Msg "processed").buf)
    some ({ Mem := e.Mem,
            UserVolume := fun j =>
              if j = userID.toNat then e.UserVolume j + total
              else e.UserVolume j },
          some (Resp.orderVal ⟨total, now, logBytes⟩))
  else some (e, none)

/-- The integer carried on the response channel, if any. -/
def respInt : Option (Engine × Option Resp) → Option Int
  | some (_, some (Resp.intVal v)) => some v
  | _ => none

/-- A small concrete engine: an 8-byte fresh arena and an all-zero state
table.  Used to evaluate `process` on concrete tasks. -/
def E0 : Engine := ⟨⟨List.replicate 8 0, 0⟩, fun _ => 0⟩

end core

/-! ### Theorems -/

namespace fastqueue

/-- Go `uint64` subtraction `P - Q` does not wrap while `Q ≤ P < 2^64`. -/
theorem uintSub_eq {P Q : Nat} (hQP : Q ≤ P) (hP : P < U64) :
    (P + U64 - Q) % U64 = P - Q := by
  have h1 : P + U64 - Q = (P - Q) + U64 := by omega
  rw [h1, Nat.add_mod_right, Nat.mod_eq_of_lt (by omega)]

/-- Indices less than a ring apart have distinct slots. -/
theorem mod_ne_of_between {i P N : Nat} (h1 : i < P) (h2 : P < i + N) :
    i % N ≠ P % N := by
  intro h
  have hdvd : N ∣ P - i := (Nat.modEq_iff_dvd' h1.le).mp h
  have := Nat.le_of_dvd (by omega) hdvd
  omega

/-- A successful `Push` extends the pushed history and preserves the
sequential-use invariant. -/
theorem push_step {T : Type} [Inhabited T] {k : Nat} {pushed popped : List T}
    {rb : RingBuffer T} (x : T)
    (hinv : QInv (2 ^ k) pushed popped rb)
    (hP1 : pushed.length + 1 < U64)
    (hfull : ¬ (rb.head + U64 - rb.tail) % U64 ≥ rb.size) :
    (rb.Push x).2 = true ∧ QInv (2 ^ k) (pushed ++ [x]) popped (rb.Push x).1 := by
  obtain ⟨hsz, hmask, hbl, hhd, htl, hle, hbd, hP, hfifo, hcont⟩ := hinv
  have hNpos : 0 < 2 ^ k := Nat.two_pow_pos k
  have hsub : (rb.head + U64 - rb.tail) % U64 = pushed.length - popped.length := by
    rw [hhd, htl]; exact uintSub_eq hle hP
  have hroom : pushed.length - popped.length < 2 ^ k := by
    rw [hsub, hsz] at hfull; omega
  have hidx : rb.head &&& rb.mask = pushed.length % 2 ^ k := by
    rw [hhd, hmask, Nat.and_pow_two_sub_one_eq_mod]
  rw [RingBuffer.Push, if_neg hfull]
  refine ⟨rfl, ?_, ?_, ?_, ?_, ?_, ?_, ?_, ?_, ?_, ?_⟩
  · exact hsz
  · exact hmask
  · simpa using hbl
  · simpa [hhd] using Nat.mod_eq_of_lt hP1
  · simpa using htl
  · simp; omega
  · simp; omega
  · simpa using hP1
  · simpa [List.take_append_eq_append_take, Nat.sub_eq_zero_of_le hle] using hfifo
  · intro i hQi hiP1
    simp only [List.length_append, List.length_cons, List.length_nil] at hiP1
    simp only [hidx]
    rcases Nat.lt_or_ge i pushed.length with hi | hi
    · have hne : i % 2 ^ k ≠ pushed.length % 2 ^ k :=
        mod_ne_of_between hi (by omega)
      rw [List.getElem?_set_ne hne.symm, List.getElem?_append_left hi]
      exact hcont i hQi hi
    · have hiP : i = pushed.length := by omega
      subst hiP
      rw [List.getElem?_set_self (by rw [hbl]; exact Nat.mod_lt _ hNpos)]
      rw [List.getElem?_append_right le_rfl]
      simp

/-- A successful `Pop` returns the oldest pending item and preserves the
sequential-use invariant. -/
theorem pop_step {T : Type} [Inhabited T] {k : Nat} {pushed popped : List T}
    {rb : RingBuffer T}
    (hinv : QInv (2 ^ k) pushed popped rb)
    (hne : ¬ rb.tail ≥ rb.head) :
    (rb.Pop).2.2 = true ∧
      QInv (2 ^ k) pushed (popped ++ [(rb.Pop).2.1]) (rb.Pop).1 := by
  obtain ⟨hsz, hmask, hbl, hhd, htl, hle, hbd, hP, hfifo, hcont⟩ := hinv
  have hQP : popped.length < pushed.length := by rw [hhd, htl] at hne; omega
  have hidxt : rb.tail &&& rb.mask = popped.length % 2 ^ k := by
    rw [htl, hmask, Nat.and_pow_two_sub_one_eq_mod]
  have hget : rb.buffer[popped.length % 2 ^ k]? = pushed[popped.length]? :=
    hcont _ le_rfl hQP
  have hy : pushed[popped.length]? = some (pushed.get ⟨popped.length, hQP⟩) :=
    List.getElem?_eq_getElem hQP
  have hitem : rb.buffer.getD (rb.tail &&& rb.mask) default =
      pushed.get ⟨popped.length, hQP⟩ := by
    rw [List.getD_eq_getElem?_getD, hidxt, hget, hy]; rfl
  rw [RingBuffer.Pop, if_neg hne]
  refine ⟨rfl, ?_, ?_, ?_, ?_, ?_, ?_, ?_, ?_, ?_, ?_⟩
  · exact hsz
  · exact hmask
  · exact hbl
  · exact hhd
  · simp only [List.length_append, List.length_cons, List.length_nil]
    rw [htl]
    exact Nat.mod_eq_of_lt (by omega)
  · simp; omega
  · simp; omega
  · exact hP
  · rw [hitem]
    simp only [List.length_append, List.length_cons, List.length_nil]
    rw [List.take_succ, hy, ← hfifo]
    simp
  · intro i h1 h2
    simp only [List.length_append, List.length_cons, List.length_nil] at h1
    exact hcont i (by omega) h2

/-- Any sequential run of operations preserves the sequential-use invariant
(while fewer than `2^64` pushes have ever happened, so that the `uint64`
head index has not wrapped). -/
theorem runOps_inv {T : Type} [Inhabited T] {k : Nat} :
    ∀ (ops : List (QOp T)) (rb : RingBuffer T) (pushed popped : List T),
      QInv (2 ^ k) pushed popped rb →
      pushed.length + ops.length < U64 →
      QInv (2 ^ k) (pushed ++ (runOps rb ops).2.1)
        (popped ++ (runOps rb ops).2.2) (runOps rb ops).1 := by
  intro ops
  induction ops with
  | nil => intro rb pushed popped hinv _; simpa [runOps] using hinv
  | cons op ops ih =>
    intro rb pushed popped hinv hlen
    rw [List.length_cons] at hlen
    cases op with
    | push x =>
      by_cases hfull : (rb.head + U64 - rb.tail) % U64 ≥ rb.size
      · have hPush : rb.Push x = (rb, false) := by
          rw [RingBuffer.Push, if_pos hfull]
        simp only [runOps, hPush, Bool.false_eq_true, if_false]
        exact ih rb pushed popped hinv (by omega)
      · obtain ⟨hok, hstep⟩ := push_step x hinv (by omega) hfull
        simp only [runOps, hok, if_true]
        have := ih (rb.Push x).1 (pushed ++ [x]) popped hstep
          (by simp only [List.length_append, List.length_cons, List.length_nil]; omega)
        simpa [List.append_assoc] using this
    | pop =>
      by_cases hemp : rb.tail ≥ rb.head
      · have hPop : rb.Pop = (rb, default, false) := by
          rw [RingBuffer.Pop, if_pos hemp]
        simp only [runOps, hPop, Bool.false_eq_true, if_false]
        exact ih rb pushed popped hinv (by omega)
      · obtain ⟨hok, hstep⟩ := pop_step hinv hemp
        simp only [runOps, hok, if_true]
        have := ih (rb.Pop).1 pushed (popped ++ [(rb.Pop).2.1]) hstep (by omega)
        simpa [List.append_assoc] using this

/-- `New` at a power-of-two size `2^k` (with `2^k` a representable `uint64`
size, i.e. `k ≤ 64`) succeeds and yields the all-zero fresh queue. -/
theorem New_pow2 (T : Type) [Inhabited T] {k : Nat} (hk : k ≤ 64) :
    New T (2 ^ k) = some ⟨List.replicate (2 ^ k) default, 2 ^ k, 2 ^ k - 1, 0, 0⟩ := by
  have hNpos : 0 < 2 ^ k := Nat.two_pow_pos k
  have hle : 2 ^ k ≤ U64 := Nat.pow_le_pow_right (by norm_num) hk
  have hm : (2 ^ k + U64 - 1) % U64 = 2 ^ k - 1 := by
    have h1 : 2 ^ k + U64 - 1 = (2 ^ k - 1) + U64 := by omega
    rw [h1, Nat.add_mod_right, Nat.mod_eq_of_lt (by omega)]
  have hguard : 2 ^ k &&& (2 ^ k - 1) = 0 := by
    rw [Nat.and_pow_two_sub_one_eq_mod, Nat.mod_self]
  rw [New, hm, hguard]
  simp

/-- The fresh queue satisfies the sequential-use invariant with empty
histories. -/
theorem QInv_init {T : Type} [Inhabited T] {k : Nat} {rb0 : RingBuffer T}
    (hk : k ≤ 64) (h0 : New T (2 ^ k) = some rb0) :
    QInv (2 ^ k) ([] : List T) [] rb0 := by
  rw [New_pow2 T hk] at h0
  obtain rfl : (⟨List.replicate (2 ^ k) default, 2 ^ k, 2 ^ k - 1, 0, 0⟩ :
      RingBuffer T) = rb0 := by injection h0
  refine ⟨rfl, rfl, by simp, rfl, rfl, le_rfl, by simp, ?_, rfl, ?_⟩
  · have : (0 : Nat) < U64 := by rw [U64]; exact Nat.two_pow_pos 64
    simpa using this
  · intro i h1 h2
    simp at h2

/-- In any invariant-satisfying state: `Push` fails iff `head - tail` equals
the capacity (leaving the state unchanged), and `Pop` fails iff
`head = tail`. -/
theorem full_empty_iff {T : Type} [Inhabited T] {k : Nat}
    {pushed popped : List T} {rb : RingBuffer T}
    (hinv : QInv (2 ^ k) pushed popped rb) (x : T) :
    ((rb.Push x).2 = false ↔ rb.head - rb.tail = 2 ^ k) ∧
    ((rb.Push x).2 = false → (rb.Push x).1 = rb) ∧
    ((rb.Pop).2.2 = false ↔ rb.head = rb.tail) := by
  obtain ⟨hsz, hmask, hbl, hhd, htl, hle, hbd, hP, hfifo, hcont⟩ := hinv
  have hsub : (rb.head + U64 - rb.tail) % U64 = rb.head - rb.tail := by
    rw [hhd, htl]
    exact uintSub_eq hle hP
  refine ⟨?_, ?_, ?_⟩
  · rw [RingBuffer.Push]
    split
    · rename_i hge
      rw [hsub] at hge
      simp only [true_iff]
      rw [hhd, htl] at hge ⊢
      rw [hsz] at hge
      omega
    · rename_i hlt
      rw [hsub] at hlt
      simp only [Bool.true_eq_false, false_iff]
      rw [hsz] at hlt
      omega
  · rw [RingBuffer.Push]
    split
    · intro; rfl
    · intro h; simp at h
  · rw [RingBuffer.Pop]
    split
    · rename_i hge
      simp only [true_iff]
      rw [hhd, htl] at hge ⊢
      omega
    · rename_i hlt
      simp only [Bool.true_eq_false, false_iff]
      omega

/-- C1: for every sequence of Push and Pop calls on a `RingBuffer` built by
`New` (executed under the SPSC discipline, modelled as a sequential
interleaving, with fewer than `2^64` operations so the `uint64` counters have
not wrapped), the sequence of successfully popped items is exactly the initial
segment (of its own length) of the sequence of successfully pushed items: same
order, each pushed item delivered at most — and, once popped, exactly — once. -/
theorem queue_fifo (T : Type) [Inhabited T] (k : Nat) (hk : k ≤ 64)
    (rb0 : RingBuffer T) (h0 : New T (2 ^ k) = some rb0)
    (ops : List (QOp T)) (hlen : ops.length < U64) :
    (runOps rb0 ops).2.2 =
      (runOps rb0 ops).2.1.take (runOps rb0 ops).2.2.length := by
  have hinv := runOps_inv ops rb0 [] [] (QInv_init hk h0) (by simpa using hlen)
  have hfifo := hinv.fifo
  simpa using hfifo

/-- Witness for C1: a concrete run on a capacity-1 queue. -/
theorem queue_fifo_witness :
    (0 : Nat) ≤ 64 ∧
    New Nat (2 ^ 0) = some ⟨[0], 1, 0, 0, 0⟩ ∧
    ([QOp.push 5, QOp.pop] : List (QOp Nat)).length < U64 ∧
    (runOps (⟨[0], 1, 0, 0, 0⟩ : RingBuffer Nat) [QOp.push 5, QOp.pop]).2.2 =
      (runOps (⟨[0], 1, 0, 0, 0⟩ : RingBuffer Nat) [QOp.push 5, QOp.pop]).2.1.take
        (runOps (⟨[0], 1, 0, 0, 0⟩ : RingBuffer Nat) [QOp.push 5, QOp.pop]).2.2.length :=
  ⟨by norm_num, by rfl, by decide,
    queue_fifo Nat 0 (by norm_num) _ (by rfl) [QOp.push 5, QOp.pop] (by decide)⟩

/-- C2: in every state reachable by sequential use from a fresh `New` queue,
`Push` returns `false` exactly when `head - tail` equals the capacity (and a
failed `Push` leaves the state completely unchanged), and `Pop` reports
failure exactly when `head = tail`. -/
theorem push_pop_failure_conditions (T : Type) [Inhabited T] (k : Nat)
    (hk : k ≤ 64) (rb0 : RingBuffer T) (h0 : New T (2 ^ k) = some rb0)
    (ops : List (QOp T)) (hlen : ops.length < U64) (x : T) :
    (((runOps rb0 ops).1.Push x).2 = false ↔
        (runOps rb0 ops).1.head - (runOps rb0 ops).1.tail = 2 ^ k) ∧
    (((runOps rb0 ops).1.Push x).2 = false →
        ((runOps rb0 ops).1.Push x).1 = (runOps rb0 ops).1) ∧
    (((runOps rb0 ops).1.Pop).2.2 = false ↔
        (runOps rb0 ops).1.head = (runOps rb0 ops).1.tail) :=
  full_empty_iff (runOps_inv ops rb0 [] [] (QInv_init hk h0) (by simpa using hlen)) x

/-- Witness for C2: the state after one push on a capacity-1 queue. -/
theorem push_pop_failure_conditions_witness :
    (0 : Nat) ≤ 64 ∧
    New Nat (2 ^ 0) = some ⟨[0], 1, 0, 0, 0⟩ ∧
    ([QOp.push 7] : List (QOp Nat)).length < U64 ∧
    ((((runOps (⟨[0], 1, 0, 0, 0⟩ : RingBuffer Nat) [QOp.push 7]).1.Push 9).2 = false ↔
        (runOps (⟨[0], 1, 0, 0, 0⟩ : RingBuffer Nat) [QOp.push 7]).1.head -
          (runOps (⟨[0], 1, 0, 0, 0⟩ : RingBuffer Nat) [QOp.push 7]).1.tail = 2 ^ 0) ∧
      (((runOps (⟨[0], 1, 0, 0, 0⟩ : RingBuffer Nat) [QOp.push 7]).1.Push 9).2 = false →
        ((runOps (⟨[0], 1, 0, 0, 0⟩ : RingBuffer Nat) [QOp.push 7]).1.Push 9).1 =
          (runOps (⟨[0], 1, 0, 0, 0⟩ : RingBuffer Nat) [QOp.push 7]).1) ∧
      (((runOps (⟨[0], 1, 0, 0, 0⟩ : RingBuffer Nat) [QOp.push 7]).1.Pop).2.2 = false ↔
        (runOps (⟨[0], 1, 0, 0, 0⟩ : RingBuffer Nat) [QOp.push 7]).1.head =
          (runOps (⟨[0], 1, 0, 0, 0⟩ : RingBuffer Nat) [QOp.push 7]).1.tail)) :=
  ⟨by norm_num, by rfl, by decide,
    push_pop_failure_conditions Nat 0 (by norm_num) _ (by rfl) [QOp.push 7] (by decide) 9⟩

/-- C8: starting from a freshly constructed queue, `tail ≤ head` and
`head - tail ≤ N` hold after every sequence of sequential Push/Pop
operations. -/
theorem head_tail_invariant (T : Type) [Inhabited T] (k : Nat) (hk : k ≤ 64)
    (rb0 : RingBuffer T) (h0 : New T (2 ^ k) = some rb0)
    (ops : List (QOp T)) (hlen : ops.length < U64) :
    (runOps rb0 ops).1.tail ≤ (runOps rb0 ops).1.head ∧
    (runOps rb0 ops).1.head - (runOps rb0 ops).1.tail ≤ 2 ^ k := by
  have hinv := runOps_inv ops rb0 [] [] (QInv_init hk h0) (by simpa using hlen)
  have h1 := hinv.head_eq
  have h2 := hinv.tail_eq
  have h3 := hinv.pop_le
  have h4 := hinv.push_bound
  constructor <;> omega

/-- Witness for C8: a concrete push/pop/push run on a capacity-2 queue. -/
theorem head_tail_invariant_witness :
    (1 : Nat) ≤ 64 ∧
    New Nat (2 ^ 1) = some ⟨[0, 0], 2, 1, 0, 0⟩ ∧
    ([QOp.push 3, QOp.pop, QOp.push 4] : List (QOp Nat)).length < U64 ∧
    ((runOps (⟨[0, 0], 2, 1, 0, 0⟩ : RingBuffer Nat) [QOp.push 3, QOp.pop, QOp.push 4]).1.tail ≤
        (runOps (⟨[0, 0], 2, 1, 0, 0⟩ : RingBuffer Nat) [QOp.push 3, QOp.pop, QOp.push 4]).1.head ∧
      (runOps (⟨[0, 0], 2, 1, 0, 0⟩ : RingBuffer Nat) [QOp.push 3, QOp.pop, QOp.push 4]).1.head -
        (runOps (⟨[0, 0], 2, 1, 0, 0⟩ : RingBuffer Nat) [QOp.push 3, QOp.pop, QOp.push 4]).1.tail ≤ 2 ^ 1) :=
  ⟨by norm_num, by rfl, by decide,
    head_tail_invariant Nat 1 (by norm_num) _ (by rfl) [QOp.push 3, QOp.pop, QOp.push 4] (by decide)⟩

/-- For positive `n`, the Go check `n & (n-1) == 0` holds iff `n` is a
power of two. -/
theorem and_pred_eq_zero_iff {n : Nat} (hn : 0 < n) :
    n &&& (n - 1) = 0 ↔ isPow2 n := by
  constructor
  · intro h
    by_contra hnp
    have hlo : 2 ^ Nat.log 2 n ≤ n := Nat.pow_log_le_self 2 (by omega)
    have hhi : n < 2 ^ (Nat.log 2 n + 1) := Nat.lt_pow_succ_log_self (by norm_num) n
    have hne : n ≠ 2 ^ Nat.log 2 n := fun hnk => hnp ⟨Nat.log 2 n, hnk⟩
    rw [pow_succ] at hhi
    have hdiv1 : n / 2 ^ Nat.log 2 n = 1 := by
      apply Nat.div_eq_of_lt_le (by omega)
      omega
    have hdiv2 : (n - 1) / 2 ^ Nat.log 2 n = 1 := by
      apply Nat.div_eq_of_lt_le (by omega)
      omega
    have hb1 : n.testBit (Nat.log 2 n) = true := by
      rw [Nat.testBit_to_div_mod, hdiv1]
      decide
    have hb2 : (n - 1).testBit (Nat.log 2 n) = true := by
      rw [Nat.testBit_to_div_mod, hdiv2]
      decide
    have hband : (n &&& (n - 1)).testBit (Nat.log 2 n) = true := by
      rw [Nat.testBit_and, hb1, hb2]
      decide
    rw [h, Nat.zero_testBit] at hband
    simp at hband
  · rintro ⟨k, rfl⟩
    rw [Nat.and_pow_two_sub_one_eq_mod, Nat.mod_self]

/-- C9 counterexample: `size = 0` is not a power of two, yet `fastqueue.New`
accepts it (the Go check `size & (size-1) != 0` computes `0 & (2^64-1) = 0`),
returning a queue instead of panicking. -/
theorem new_accepts_size_zero : (New Nat 0).isSome = true ∧ ¬ isPow2 0 := by
  refine ⟨rfl, ?_⟩
  rintro ⟨k, hk⟩
  exact absurd hk.symm (Nat.two_pow_pos k).ne'

/-- C9 (amended): for every nonzero `uint64` size that is not a power of two,
constructing a `RingBuffer` with that size panics; size 0, although not a
power of two, is accepted. -/
theorem new_rejects_non_pow2 (T : Type) [Inhabited T] (size : Nat)
    (h1 : 0 < size) (h2 : size < U64) (h3 : ¬ isPow2 size) :
    New T size = none := by
  have hm : (size + U64 - 1) % U64 = size - 1 := by
    have hs : size + U64 - 1 = (size - 1) + U64 := by omega
    rw [hs, Nat.add_mod_right, Nat.mod_eq_of_lt (by omega)]
  rw [New, hm, if_pos (fun h => h3 ((and_pred_eq_zero_iff h1).mp h))]

/-- Witness for the amended C9: size 3 is rejected. -/
theorem new_rejects_non_pow2_witness :
    (0 : Nat) < 3 ∧ (3 : Nat) < U64 ∧ ¬ isPow2 3 ∧ New Nat 3 = none :=
  ⟨by norm_num, by decide,
    fun h => absurd ((and_pred_eq_zero_iff (by norm_num)).mpr h) (by decide),
    new_rejects_non_pow2 Nat 3 (by norm_num) (by decide)
      (fun h => absurd ((and_pred_eq_zero_iff (by norm_num)).mpr h) (by decide))⟩

end fastqueue

namespace arena

/-- A position advanced past the padding is aligned. -/
theorem pad_aligned {offset align : Nat} (h : 0 < align) :
    (offset + pad offset align) % align = 0 := by
  rw [pad]
  rcases Nat.eq_zero_or_pos (offset % align) with hr | hr
  · rw [hr]
    simp [Nat.mod_self, hr]
  · have h1 : offset % align < align := Nat.mod_lt _ h
    have h2 : (align - offset % align) % align = align - offset % align :=
      Nat.mod_eq_of_lt (by omega)
    rw [h2]
    have hdm := Nat.div_add_mod offset align
    have h3 : offset + (align - offset % align) = align + align * (offset / align) := by
      omega
    rw [h3, Nat.add_mul_mod_self_left, Nat.mod_self]

/-- `zeroFill` preserves the region length when the span fits. -/
theorem zeroFill_length {l : List Nat} {start len : Nat}
    (h : start + len ≤ l.length) :
    (zeroFill l start len).length = l.length := by
  rw [zeroFill, List.length_append, List.length_append, List.length_take,
      List.length_replicate, List.length_drop, min_eq_left (by omega)]
  omega

/-- Every byte inside a `zeroFill`ed span is zero. -/
theorem zeroFill_getElem_in {l : List Nat} {start len i : Nat}
    (hb : start + len ≤ l.length) (h1 : start ≤ i) (h2 : i < start + len) :
    (zeroFill l start len)[i]? = some 0 := by
  rw [zeroFill]
  have hts : (l.take start).length = start := by
    rw [List.length_take]; exact min_eq_left (by omega)
  rw [List.getElem?_append_left
    (by rw [List.length_append, hts, List.length_replicate]; omega)]
  rw [List.getElem?_append_right (by rw [hts]; omega)]
  rw [hts, List.getElem?_replicate, if_pos (by omega)]

/-- Characterisation of a successful `New`: the returned span starts after
the caller's cursor (past the padding), and the new cursor sits at the end
of the span; the region length is unchanged. -/
theorem New_span {a : Arena} {size align : Nat} {a' : Arena} {off : Nat}
    (h : New a size align = some (a', off)) :
    off = a.offset + pad a.offset align ∧
    a'.offset = off + size ∧
    a'.buf.length = a.buf.length := by
  rw [New] at h
  split at h
  · simp at h
  · split at h
    · simp at h
    · rename_i hg1 hg2
      simp only [Option.some.injEq, Prod.mk.injEq] at h
      obtain ⟨rfl, rfl⟩ := h
      refine ⟨rfl, rfl, ?_⟩
      exact zeroFill_length (by omega)

/-- Spans produced by a run of allocations lie between the initial and final
cursors, are aligned, and are pairwise ordered (each ends no later than the
next begins). -/
theorem runAllocs_spec :
    ∀ (reqs : List arena.Req) (a : Arena), (∀ r ∈ reqs, 0 < r.align) →
      a.offset ≤ (runAllocs a reqs).1.offset ∧
      (∀ sp ∈ (runAllocs a reqs).2,
        a.offset ≤ sp.1 ∧ sp.1 + sp.2.1 ≤ (runAllocs a reqs).1.offset ∧
          sp.1 % sp.2.2 = 0) ∧
      List.Pairwise (fun p q => p.1 + p.2.1 ≤ q.1) (runAllocs a reqs).2 := by
  intro reqs
  induction reqs with
  | nil => intro a _; simp [runAllocs]
  | cons r rs ih =>
    intro a haligns
    cases hNew : New a r.size r.align with
    | none => simp [runAllocs, hNew]
    | some res =>
      obtain ⟨a1, off⟩ := res
      obtain ⟨hoff, ha1off, _⟩ := New_span hNew
      have halign : 0 < r.align := haligns r (by simp)
      obtain ⟨ihmono, ihspans, ihpair⟩ :=
        ih a1 (fun q hq => haligns q (by simp [hq]))
      simp only [runAllocs, hNew]
      refine ⟨by omega, ?_, ?_⟩
      · intro sp hsp
        rcases List.mem_cons.mp hsp with rfl | hsp
        · refine ⟨?_, ?_, ?_⟩
          · show a.offset ≤ off
            omega
          · show off + r.size ≤ (runAllocs a1 rs).1.offset
            omega
          · show off % r.align = 0
            rw [hoff]
            exact pad_aligned halign
        · obtain ⟨hb1, hb2, hb3⟩ := ihspans sp hsp
          exact ⟨by omega, by omega, hb3⟩
      · refine List.Pairwise.cons ?_ ihpair
        intro sp hsp
        obtain ⟨hb1, hb2, hb3⟩ := ihspans sp hsp
        show off + r.size ≤ sp.1
        omega

/-- C3: for any sequence of arena allocations within a single epoch (no
`Reset` in between, starting from a freshly reset arena) whose total size
including alignment padding does not exceed the arena's capacity, every
returned span is disjoint from all spans returned earlier in the epoch, and
every returned span's starting offset is a multiple of the request's
alignment (Go alignments are always positive). -/
theorem alloc_disjoint_aligned (a0 : Arena) (reqs : List Req)
    (hfresh : a0.offset = 0)
    (haligns : ∀ r ∈ reqs, 0 < r.align)
    (hcap : paddedEnd 0 reqs ≤ a0.buf.length) :
    List.Pairwise (fun p q => p.1 + p.2.1 ≤ q.1 ∨ q.1 + q.2.1 ≤ p.1)
      (runAllocs a0 reqs).2 ∧
    ∀ sp ∈ (runAllocs a0 reqs).2, sp.1 % sp.2.2 = 0 := by
  obtain ⟨_, hspans, hpair⟩ := runAllocs_spec reqs a0 haligns
  exact ⟨hpair.imp fun h => Or.inl h, fun sp hsp => (hspans sp hsp).2.2⟩

/-- Witness for C3: three exact-fit allocations on an 8-byte arena. -/
theorem alloc_disjoint_aligned_witness :
    (⟨List.replicate 8 0, 0⟩ : Arena).offset = 0 ∧
    (∀ r ∈ [Req.mk 1 1, Req.mk 2 2, Req.mk 4 4], 0 < r.align) ∧
    paddedEnd 0 [Req.mk 1 1, Req.mk 2 2, Req.mk 4 4] ≤
      (⟨List.replicate 8 0, 0⟩ : Arena).buf.length ∧
    (List.Pairwise (fun p q => p.1 + p.2.1 ≤ q.1 ∨ q.1 + q.2.1 ≤ p.1)
      (runAllocs ⟨List.replicate 8 0, 0⟩ [Req.mk 1 1, Req.mk 2 2, Req.mk 4 4]).2 ∧
    ∀ sp ∈ (runAllocs ⟨List.replicate 8 0, 0⟩
        [Req.mk 1 1, Req.mk 2 2, Req.mk 4 4]).2, sp.1 % sp.2.2 = 0) :=
  ⟨rfl, by decide, by decide,
    alloc_disjoint_aligned ⟨List.replicate 8 0, 0⟩
      [Req.mk 1 1, Req.mk 2 2, Req.mk 4 4] rfl (by decide) (by decide)⟩

/-- C4 counterexample: an allocation can fail although padding + size does
not exceed the remaining capacity.  An 8-byte allocation fills a fresh
8-byte arena exactly; a subsequent zero-size, alignment-1 request (e.g.
`arena.New[struct{}]`) has padding + size = 0 ≤ remaining capacity 0, yet
fails — the code takes `&a.buf[a.offset]` with `a.offset = len(a.buf)`,
an index-out-of-range panic rather than the out-of-memory panic. -/
theorem alloc_fails_within_capacity :
    New ⟨List.replicate 8 0, 0⟩ 8 1 = some (⟨List.replicate 8 0, 8⟩, 0) ∧
    New ⟨List.replicate 8 0, 8⟩ 0 1 = none ∧
    pad 8 1 + 0 ≤ 8 - 8 :=
  ⟨rfl, rfl, by decide⟩

/-- C4 (amended): an allocation fails exactly when padding + size exceeds
the remaining capacity (the fatal out-of-memory panic); or when the
request's size is zero and padding exhausts the remaining capacity exactly
(an index-out-of-range panic when the address `&a.buf[a.offset]` is
formed); or — for `MakeSlice` only — when the requested length exceeds the
requested capacity (the slice-bounds panic of `s[:length]`).  A failing
allocation yields no span and no updated state, and the failure is a
deterministic function of the arena state and the request. -/
theorem alloc_failure_iff (a : Arena) (size align eSize eAlign slen scap : Nat)
    (hinv : a.offset ≤ a.buf.length) :
    (New a size align = none ↔
      a.buf.length - a.offset < pad a.offset align + size ∨
        (size = 0 ∧ a.offset + pad a.offset align = a.buf.length)) ∧
    (MakeSlice a eSize eAlign slen scap = none ↔
      a.buf.length - a.offset < pad a.offset eAlign + eSize * scap ∨
        (eSize * scap = 0 ∧ a.offset + pad a.offset eAlign = a.buf.length) ∨
        scap < slen) := by
  constructor
  · rw [New]
    split
    · rename_i hg1
      constructor
      · intro _; left; omega
      · intro _; rfl
    · rename_i hg1
      split
      · rename_i hg2
        constructor
        · intro _; right; omega
        · intro _; rfl
      · rename_i hg2
        constructor
        · intro h; simp at h
        · intro h; exfalso; rcases h with h | ⟨h0, h1⟩ <;> omega
  · rw [MakeSlice]
    split
    · rename_i hg1
      constructor
      · intro _; left; omega
      · intro _; rfl
    · rename_i hg1
      split
      · rename_i hg2
        constructor
        · intro _; right; left; omega
        · intro _; rfl
      · rename_i hg2
        split
        · rename_i hg3
          constructor
          · intro _; right; right; exact hg3
          · intro _; rfl
        · rename_i hg3
          constructor
          · intro h; simp at h
          · intro h; exfalso
            rcases h with h | ⟨h0, h1⟩ | h <;> omega

/-- Witness for the amended C4: a 4-byte arena with cursor 2; a 3-byte `New`
fails (out of memory), and a `MakeSlice` asking for length 2 with capacity 1
fails (slice bounds), both matching the amended condition. -/
theorem alloc_failure_iff_witness :
    (⟨List.replicate 4 0, 2⟩ : Arena).offset ≤
      (⟨List.replicate 4 0, 2⟩ : Arena).buf.length ∧
    ((New ⟨List.replicate 4 0, 2⟩ 3 1 = none ↔
      (⟨List.replicate 4 0, 2⟩ : Arena).buf.length - 2 < pad 2 1 + 3 ∨
        (3 = 0 ∧ 2 + pad 2 1 = (⟨List.replicate 4 0, 2⟩ : Arena).buf.length)) ∧
    (MakeSlice ⟨List.replicate 4 0, 2⟩ 1 1 2 1 = none ↔
      (⟨List.replicate 4 0, 2⟩ : Arena).buf.length - 2 < pad 2 1 + 1 * 1 ∨
        (1 * 1 = 0 ∧ 2 + pad 2 1 = (⟨List.replicate 4 0, 2⟩ : Arena).buf.length) ∨
        (1 : Nat) < 2)) :=
  ⟨by decide, alloc_failure_iff ⟨List.replicate 4 0, 2⟩ 3 1 1 1 2 1 (by decide)⟩

/-- C7: every span handed out by `New` or `MakeSlice` is zero-filled at the
moment it is returned, regardless of the stale bytes the reused region held:
`New` returns `size` zero bytes (the zero value of `T`), and `MakeSlice`
returns `elemSize * capacity` zero bytes (all capacity elements zeroed). -/
theorem alloc_zero_filled (a : Arena) (size align eSize eAlign slen scap : Nat) :
    (∀ a' off, New a size align = some (a', off) →
      ∀ i, i < size → a'.buf[off + i]? = some 0) ∧
    (∀ a' off l c, MakeSlice a eSize eAlign slen scap = some (a', off, l, c) →
      ∀ i, i < eSize * scap → a'.buf[off + i]? = some 0) := by
  constructor
  · intro a' off h i hi
    rw [New] at h
    split at h
    · simp at h
    · split at h
      · simp at h
      · rename_i hg1 hg2
        simp only [Option.some.injEq, Prod.mk.injEq] at h
        obtain ⟨rfl, rfl⟩ := h
        exact zeroFill_getElem_in (by omega) (by omega) (by omega)
  · intro a' off l c h i hi
    rw [MakeSlice] at h
    split at h
    · simp at h
    · split at h
      · simp at h
      · split at h
        · simp at h
        · rename_i hg1 hg2 hg3
          simp only [Option.some.injEq, Prod.mk.injEq] at h
          obtain ⟨rfl, rfl, rfl, rfl⟩ := h
          exact zeroFill_getElem_in (by omega) (by omega) (by omega)

/-- Witness for C7: a region full of stale bytes 7; a 2-byte `New` and a
3-byte `MakeSlice` each return zeroed spans. -/
theorem alloc_zero_filled_witness :
    New ⟨List.replicate 8 7, 0⟩ 2 1 = some (⟨[0, 0, 7, 7, 7, 7, 7, 7], 2⟩, 0) ∧
    (0 : Nat) < 2 ∧
    (⟨[0, 0, 7, 7, 7, 7, 7, 7], 2⟩ : Arena).buf[0 + 1]? = some 0 ∧
    MakeSlice ⟨List.replicate 8 7, 0⟩ 1 1 3 3 =
      some (⟨[0, 0, 0, 7, 7, 7, 7, 7], 3⟩, 0, 3, 3) ∧
    (2 : Nat) < 1 * 3 ∧
    (⟨[0, 0, 0, 7, 7, 7, 7, 7], 3⟩ : Arena).buf[0 + 2]? = some 0 :=
  ⟨rfl, by norm_num,
    (alloc_zero_filled ⟨List.replicate 8 7, 0⟩ 2 1 1 1 3 3).1 _ _ rfl 1 (by norm_num),
    rfl, by norm_num,
    (alloc_zero_filled ⟨List.replicate 8 7, 0⟩ 2 1 1 1 3 3).2 _ _ _ _ rfl 2 (by norm_num)⟩

end arena

namespace zlog

/-- C6: starting from an empty logger buffer, `Int("ts", 7)`,
`Str("type", "order")`, `Msg("processed")` produce exactly the byte sequence
`"ts=7 type=order msg=processed\n"`; in general `Int`/`Str` append the token
`key=value ` (integers rendered in decimal) and `Msg` appends the terminal
token `msg=<text>\n`. -/
theorem logger_output :
    ((((Wrap "").Int "ts" 7).Str "type" "order").Msg "processed").buf =
      "ts=7 type=order msg=processed\n" ∧
    (∀ (l : Logger) (key : String) (val : Int),
      (l.Int key val).buf = l.buf ++ key ++ "=" ++ toString val ++ " ") ∧
    (∀ (l : Logger) (key val : String),
      (l.Str key val).buf = l.buf ++ key ++ "=" ++ val ++ " ") ∧
    (∀ (l : Logger) (msg : String),
      (l.Msg msg).buf = l.buf ++ "msg=" ++ msg ++ "\n") :=
  ⟨rfl, fun _ _ _ => rfl, fun _ _ _ => rfl, fun _ _ => rfl⟩

end zlog

namespace core

/-- Go `int64` arithmetic does not wrap inside the representable range. -/
theorem wrapI64_eq {x : Int} (h1 : -(2 ^ 63) ≤ x) (h2 : x < 2 ^ 63) :
    wrapI64 x = x := by
  rw [wrapI64]
  have h3 : (0 : Int) ≤ x + 2 ^ 63 := by omega
  have h4 : x + 2 ^ 63 < 2 ^ 64 := by omega
  rw [Int.emod_eq_of_lt h3 h4]
  omega

/-- Evaluation of `process` on a calc task whose arena allocation succeeds. -/
theorem process_calc (e : Engine) (v : Int) (pr : Rat) (q : Int)
    (lb : Option String) (now : Int) (mem1 : arena.Arena) (off : Nat)
    (halloc : arena.New e.Mem 8 8 = some (mem1, off)) :
    Engine.process e ⟨TaskTypeCalc, v, pr, q, lb⟩ now =
      some ({ Mem := mem1,
              UserVolume := fun j =>
                if j = 0 then e.UserVolume j + ((wrapI64 (v * 2) : Int) : Rat)
                else e.UserVolume j },
            some (Resp.intVal (wrapI64 (v * 2)))) := by
  rw [Engine.process, if_pos rfl, halloc]

/-- Evaluation of `process` on an order task. -/
theorem process_order (e : Engine) (v : Int) (pr : Rat) (q : Int)
    (lb : Option String) (now : Int) :
    Engine.process e ⟨TaskTypeOrder, v, pr, q, lb⟩ now =
      some ({ Mem := e.Mem,
              UserVolume := fun j =>
                if j = (Int.land v 1023).toNat then
                  e.UserVolume j + pr * (q : Rat)
                else e.UserVolume j },
            some (Resp.orderVal ⟨pr * (q : Rat), now,
              match lb with
              | none => none
              | some b =>
                some ((((((zlog.Wrap b).Int "ts" now).Str "type" "order").Int
                  "uid" (Int.land v 1023)).Msg "processed").buf)⟩)) := by
  rw [Engine.process, if_neg (fun h => nomatch h), if_pos rfl]

/-- C5 counterexample: the scale handler computes `t.Value * 2` in wrapping
`int64` arithmetic, so the input `2^62` is answered with `-2^63`, not with
`2 * 2^62`. -/
theorem scale_task_overflow :
    respInt (Engine.process E0 ⟨TaskTypeCalc, 2 ^ 62, 0, 0, none⟩ 0) =
      some (-(2 ^ 63)) ∧
    (-(2 ^ 63) : Int) ≠ 2 * 2 ^ 62 :=
  ⟨rfl, by decide⟩

/-- C5 (amended): provided `2 * v` stays inside the `int64` range (and the
arena allocation of the scratch `int` succeeds), a scale task with value `v`
answers exactly `2 * v` on its completion channel and adds `2 * v` to slot 0
of the bounded state table (float64 values idealised as exact rationals);
and two aggregate tasks with the same id each add their price-times-quantity
total to the same slot, the one at `id & (size-1) = id & 1023`. -/
theorem dispatch_correctness (e eo : Engine) (v now : Int)
    (hlo : -(2 ^ 62) ≤ v) (hhi : v < 2 ^ 62)
    (mem1 : arena.Arena) (off : Nat)
    (halloc : arena.New e.Mem 8 8 = some (mem1, off)) :
    (∃ e1, Engine.process e ⟨TaskTypeCalc, v, 0, 0, none⟩ now =
        some (e1, some (Resp.intVal (2 * v))) ∧
      e1.UserVolume 0 = e.UserVolume 0 + ((2 * v : Int) : Rat) ∧
      (∀ j, j ≠ 0 → e1.UserVolume j = e.UserVolume j)) ∧
    (∀ (p1 p2 : Rat) (q1 q2 id now1 now2 : Int) (b1 b2 : Option String),
      ∃ e1 e2 r1 r2,
        Engine.process eo ⟨TaskTypeOrder, id, p1, q1, b1⟩ now1 =
          some (e1, some (Resp.orderVal r1)) ∧
        Engine.process e1 ⟨TaskTypeOrder, id, p2, q2, b2⟩ now2 =
          some (e2, some (Resp.orderVal r2)) ∧
        r1.Total = p1 * (q1 : Rat) ∧ r2.Total = p2 * (q2 : Rat) ∧
        e2.UserVolume (Int.land id 1023).toNat =
          eo.UserVolume (Int.land id 1023).toNat +
            p1 * (q1 : Rat) + p2 * (q2 : Rat)) := by
  have hd : wrapI64 (v * 2) = 2 * v := by
    rw [wrapI64_eq (by omega) (by omega)]
    ring
  constructor
  · refine ⟨{ Mem := mem1,
              UserVolume := fun j =>
                if j = 0 then e.UserVolume j + ((2 * v : Int) : Rat)
                else e.UserVolume j }, ?_, ?_, ?_⟩
    · rw [process_calc e v 0 0 none now mem1 off halloc, hd]
    · simp
    · intro j hj
      simp [hj]
  · intro p1 p2 q1 q2 id now1 now2 b1 b2
    refine ⟨_, _, _, _,
      process_order eo id p1 q1 b1 now1,
      process_order _ id p2 q2 b2 now2, rfl, rfl, ?_⟩
    simp [add_assoc]

/-- Witness for the amended C5: value 50 yields result 100, slot 0 gains
100; the aggregate half instantiated with the same engine. -/
theorem dispatch_correctness_witness :
    (-(2 ^ 62) : Int) ≤ 50 ∧ (50 : Int) < 2 ^ 62 ∧
    arena.New E0.Mem 8 8 = some (⟨List.replicate 8 0, 8⟩, 0) ∧
    ((∃ e1, Engine.process E0 ⟨TaskTypeCalc, 50, 0, 0, none⟩ 0 =
        some (e1, some (Resp.intVal (2 * 50))) ∧
      e1.UserVolume 0 = E0.UserVolume 0 + ((2 * 50 : Int) : Rat) ∧
      (∀ j, j ≠ 0 → e1.UserVolume j = E0.UserVolume j)) ∧
    (∀ (p1 p2 : Rat) (q1 q2 id now1 now2 : Int) (b1 b2 : Option String),
      ∃ e1 e2 r1 r2,
        Engine.process E0 ⟨TaskTypeOrder, id, p1, q1, b1⟩ now1 =
          some (e1, some (Resp.orderVal r1)) ∧
        Engine.process e1 ⟨TaskTypeOrder, id, p2, q2, b2⟩ now2 =
          some (e2, some (Resp.orderVal r2)) ∧
        r1.Total = p1 * (q1 : Rat) ∧ r2.Total = p2 * (q2 : Rat) ∧
        e2.UserVolume (Int.land id 1023).toNat =
          E0.UserVolume (Int.land id 1023).toNat +
            p1 * (q1 : Rat) + p2 * (q2 : Rat))) :=
  ⟨by decide, by decide, rfl,
    dispatch_correctness E0 E0 50 0 (by decide) (by decide)
      ⟨List.replicate 8 0, 8⟩ 0 rfl⟩

/-- C10: an aggregate task with a nil caller log buffer performs no logging
and publishes an `OrderResult` whose `Log` field is nil, while `Total` and
`ProcessedAt` are computed and delivered exactly as for the same task with a
buffer (the state-table update is identical as well). -/
theorem order_nil_logbuf (e : Engine) (v : Int) (pr : Rat) (q now : Int)
    (b : String) :
    ∃ e1 r1 e2 r2,
      Engine.process e ⟨TaskTypeOrder, v, pr, q, none⟩ now =
        some (e1, some (Resp.orderVal r1)) ∧
      r1.Log = none ∧
      r1.Total = pr * (q : Rat) ∧ r1.ProcessedAt = now ∧
      Engine.process e ⟨TaskTypeOrder, v, pr, q, some b⟩ now =
        some (e2, some (Resp.orderVal r2)) ∧
      r2.Total = r1.Total ∧ r2.ProcessedAt = r1.ProcessedAt ∧
      e2.UserVolume = e1.UserVolume :=
  ⟨_, _, _, _, process_order e v pr q none now, rfl, rfl, rfl,
    process_order e v pr q (some b) now, rfl, rfl, rfl⟩

end core

end ArenaDemo
